import Mathlib

/-!
Verification of the contact-book core of `main.py`: the validated field
types (`Name`, `Phone`, `Birthday`), the `Record` phone operations, the
`AddressBook` mapping, and the `get_upcoming_birthdays` calendar query
with its weekend adjustment.

Python's mutable objects are embedded as immutable structures; methods
that mutate become functions returning the updated value, and methods
that can raise return `Except PyError`.  Calendar arithmetic follows
CPython's `datetime` module: dates are proleptic-Gregorian triples,
`toordinal` counts days from 0001-01-01 = 1, and `weekday()` is
`(toordinal + 6) % 7` with Monday = 0.
-/

set_option autoImplicit false

/-- Python-style error: every failure raised by the core is a `ValueError`
carrying a message. -/
inductive PyError where
  | valueError (msg : String)
deriving DecidableEq, Repr

deriving instance DecidableEq for Except

/-- Gregorian leap-year rule, as in Python `datetime._is_leap`. -/
def isLeap (y : Nat) : Bool :=
  (y % 4 == 0 && y % 100 != 0) || y % 400 == 0

/-- Length of month `m` (1-12) of year `y`, as in Python `datetime._days_in_month`. -/
def daysInMonth (y m : Nat) : Nat :=
  match m with
  | 1 => 31 | 2 => if isLeap y then 29 else 28 | 3 => 31 | 4 => 30
  | 5 => 31 | 6 => 30 | 7 => 31 | 8 => 31 | 9 => 30 | 10 => 31
  | 11 => 30 | 12 => 31 | _ => 0

/-- Days in all years strictly before year `y`, as in Python
`datetime._days_before_year`. -/
def daysBeforeYear (y : Nat) : Nat :=
  365 * (y - 1) + (y - 1) / 4 - (y - 1) / 100 + (y - 1) / 400

/-- Days of year `y` strictly before month `m`, as in Python
`datetime._days_before_month` (a fixed table plus a leap correction
after February). -/
def daysBeforeMonth (y m : Nat) : Nat :=
  (match m with
   | 1 => 0 | 2 => 31 | 3 => 59 | 4 => 90 | 5 => 120 | 6 => 151
   | 7 => 181 | 8 => 212 | 9 => 243 | 10 => 273 | 11 => 304 | 12 => 334
   | _ => 0)
  + (if 2 < m ∧ isLeap y then 1 else 0)

/-- A calendar date, the embedding of Python `datetime.date`. -/
structure Date where
  year : Nat
  month : Nat
  day : Nat
deriving DecidableEq, Repr

/-- Python `date.toordinal()`: proleptic-Gregorian ordinal, 0001-01-01 is day 1. -/
def Date.toOrdinal (d : Date) : Nat :=
  daysBeforeYear d.year + daysBeforeMonth d.year d.month + d.day

/-- Python `date.weekday()`: Monday = 0, ..., Sunday = 6; CPython computes
`(toordinal + 6) % 7`. -/
def Date.weekday (d : Date) : Nat :=
  (d.toOrdinal + 6) % 7

/-- Python `date.__lt__`: lexicographic comparison of (year, month, day). -/
def Date.pyLt (a b : Date) : Bool :=
  decide (a.year < b.year) ||
    (a.year == b.year &&
      (decide (a.month < b.month) || (a.month == b.month && decide (a.day < b.day))))

/-- Calendar validity: month and day in range for the year. -/
def Date.CalValid (d : Date) : Prop :=
  1 ≤ d.year ∧ 1 ≤ d.month ∧ d.month ≤ 12 ∧ 1 ≤ d.day ∧ d.day ≤ daysInMonth d.year d.month

instance (d : Date) : Decidable d.CalValid := by
  unfold Date.CalValid
  infer_instance

/-- A date representable by Python `datetime.date`: calendar-valid with
year in `MINYEAR..MAXYEAR = 1..9999`. -/
def Date.Valid (d : Date) : Prop :=
  d.CalValid ∧ d.year ≤ 9999

instance (d : Date) : Decidable d.Valid := by
  unfold Date.Valid
  infer_instance

/-- The `datetime.date(year, month, day)` constructor: the field checks of
CPython `_check_date_fields`, raising `ValueError` when a field is out of
range. -/
def mkDate (y m d : Nat) : Except PyError Date :=
  if 1 ≤ y ∧ y ≤ 9999 then
    if 1 ≤ m ∧ m ≤ 12 then
      if 1 ≤ d ∧ d ≤ daysInMonth y m then .ok ⟨y, m, d⟩
      else .error (.valueError "day is out of range for month")
    else .error (.valueError "month must be in 1..12")
  else .error (.valueError "year is out of range")

/-- Python `date.replace(year=y)`: rebuild the date with a new year through
the validating constructor. -/
def Date.pyReplaceYear (d : Date) (y : Nat) : Except PyError Date :=
  mkDate y d.month d.day

/-- The calendar successor of a date (used to embed `date + timedelta`). -/
def nextDate (d : Date) : Date :=
  if d.day < daysInMonth d.year d.month then ⟨d.year, d.month, d.day + 1⟩
  else if d.month < 12 then ⟨d.year, d.month + 1, 1⟩
  else ⟨d.year + 1, 1, 1⟩

/-- Python `date + timedelta(days = n)` for `n ≥ 0`: shift `n` days forward
on the proleptic-Gregorian grid. -/
def addDays (d : Date) : Nat → Date
  | 0 => d
  | n + 1 => nextDate (addDays d n)

/-- Staticmethod `Birthday.find_next_weekday` of `main.py`: the next date
after `date` whose weekday is `weekday` (adding a full week when the shift
would be non-positive). -/
def find_next_weekday (date : Date) (weekday : Nat) : Date :=
  let daysAhead : Int := (weekday : Int) - (date.weekday : Int)
  let shifted : Int := if daysAhead ≤ 0 then daysAhead + 7 else daysAhead
  addDays date shifted.toNat

/-- Staticmethod `Birthday.adjust_for_weekend` of `main.py`: roll a Saturday
or Sunday forward to the next Monday, leave other days unchanged. -/
def adjust_for_weekend (date : Date) : Date :=
  if date.weekday ≥ 5 then find_next_weekday date 0 else date

/-- ASCII digit character of `n % 10`. -/
def digitChar (n : Nat) : Char :=
  Char.ofNat (48 + n % 10)

/-- Python `date.strftime("%d.%m.%Y")`: two-digit zero-padded day and month,
four-digit zero-padded year. -/
def strftime_dmY (d : Date) : String :=
  String.mk [digitChar (d.day / 10), digitChar d.day, '.',
             digitChar (d.month / 10), digitChar d.month, '.',
             digitChar (d.year / 1000), digitChar (d.year / 100),
             digitChar (d.year / 10), digitChar d.year]

/-- The `Name` field: a plain string wrapper (class `Name(Field)`). -/
structure Name where
  value : String
deriving DecidableEq, Repr

/-- The `Phone` field: a string wrapper whose constructor validates. -/
structure Phone where
  value : String
deriving DecidableEq, Repr

/-- Python's per-character `str.isdigit` test.  It accepts every character
with the Unicode digit property, which is strictly more than the ASCII
digits: this model covers the ASCII digits plus representative non-ASCII
digit characters Python accepts — the superscripts U+00B9, U+00B2, U+00B3
and the Arabic-Indic digits U+0660..U+0669. -/
def pyCharIsDigit (c : Char) : Bool :=
  c.isDigit || c == '¹' || c == '²' || c == '³' ||
    (0x660 ≤ c.toNat && c.toNat ≤ 0x669)

/-- Python `str.isdigit`: non-empty and every character a digit character. -/
def pyIsdigit (s : String) : Bool :=
  !s.isEmpty && s.toList.all pyCharIsDigit

/-- Constructor `Phone.__init__` of `main.py`: raise `ValueError` unless the
value has length 10 and `str.isdigit` holds, otherwise store the string. -/
def Phone.init (value : String) : Except PyError Phone :=
  if value.length ≠ 10 ∨ pyIsdigit value = false then
    .error (.valueError "Phone number must be 10 digits.")
  else .ok ⟨value⟩

/-- The `Birthday` field: the original input string plus the parsed date
(the private `__date` of the source). -/
structure Birthday where
  value : String
  date : Date
deriving DecidableEq, Repr

/-- Numeric value of a digit character. -/
def digitVal (c : Char) : Nat :=
  c.toNat - 48

/-- The `%d` field of CPython `_strptime`: the regex
`3[0-1]|[1-2]\d|0[1-9]|[1-9]| [1-9]` (alternatives tried left to right;
one or two digits, optionally space-padded). -/
def matchDay : List Char → Option (Nat × List Char)
  | [] => none
  | [c] => if '1' ≤ c ∧ c ≤ '9' then some (digitVal c, []) else none
  | c₁ :: c₂ :: rest =>
    if c₁ = '3' ∧ (c₂ = '0' ∨ c₂ = '1') then some (30 + digitVal c₂, rest)
    else if (c₁ = '1' ∨ c₁ = '2') ∧ c₂.isDigit then
      some (10 * digitVal c₁ + digitVal c₂, rest)
    else if c₁ = '0' ∧ ('1' ≤ c₂ ∧ c₂ ≤ '9') then some (digitVal c₂, rest)
    else if '1' ≤ c₁ ∧ c₁ ≤ '9' then some (digitVal c₁, c₂ :: rest)
    else if c₁ = ' ' ∧ ('1' ≤ c₂ ∧ c₂ ≤ '9') then some (digitVal c₂, rest)
    else none

/-- The `%m` field of CPython `_strptime`: the regex `1[0-2]|0[1-9]|[1-9]`. -/
def matchMonth : List Char → Option (Nat × List Char)
  | [] => none
  | [c] => if '1' ≤ c ∧ c ≤ '9' then some (digitVal c, []) else none
  | c₁ :: c₂ :: rest =>
    if c₁ = '1' ∧ ('0' ≤ c₂ ∧ c₂ ≤ '2') then some (10 + digitVal c₂, rest)
    else if c₁ = '0' ∧ ('1' ≤ c₂ ∧ c₂ ≤ '9') then some (digitVal c₂, rest)
    else if '1' ≤ c₁ ∧ c₁ ≤ '9' then some (digitVal c₁, c₂ :: rest)
    else none

/-- The `%Y` field of CPython `_strptime`: exactly four digits. -/
def matchYear4 : List Char → Option (Nat × List Char)
  | c₁ :: c₂ :: c₃ :: c₄ :: rest =>
    if c₁.isDigit ∧ c₂.isDigit ∧ c₃.isDigit ∧ c₄.isDigit then
      some (1000 * digitVal c₁ + 100 * digitVal c₂ + 10 * digitVal c₃ + digitVal c₄, rest)
    else none
  | _ => none

/-- CPython `datetime.strptime(s, "%d.%m.%Y")` up to (but not including) the
date-field range checks: day field, literal dot, month field, literal dot,
four-digit year, end of string.  Returns `(year, month, day)`. -/
def strptime_dmY (s : String) : Option (Nat × Nat × Nat) :=
  match matchDay s.toList with
  | some (dd, '.' :: r₁) =>
    match matchMonth r₁ with
    | some (mm, '.' :: r₂) =>
      match matchYear4 r₂ with
      | some (yy, []) => some (yy, mm, dd)
      | _ => none
    | _ => none
  | _ => none

/-- Constructor `Birthday.__init__` of `main.py`: parse the value with
`strptime("%d.%m.%Y")`, validate the date fields through the `datetime`
constructor, store the original string; any `ValueError` is re-raised as
the fixed format message. -/
def Birthday.init (value : String) : Except PyError Birthday :=
  match strptime_dmY value with
  | some (yy, mm, dd) =>
    match mkDate yy mm dd with
    | .ok d => .ok ⟨value, d⟩
    | .error _ => .error (.valueError "Accepted date format: \x27DD.MM.YYYY\x27.")
  | none => .error (.valueError "Accepted date format: \x27DD.MM.YYYY\x27.")

/-- A contact record: name, ordered phone list, optional birthday. -/
structure Record where
  name : Name
  phones : List Phone
  birthday : Option Birthday
deriving DecidableEq, Repr

/-- Method `Record.add_phone`: validate and append. -/
def Record.add_phone (r : Record) (number : String) : Except PyError Record :=
  match Phone.init number with
  | .error e => .error e
  | .ok p => .ok { r with phones := r.phones ++ [p] }

/-- Loop of `Record.remove_phone`: drop the first phone whose value equals
`number`, raising `ValueError` when none matches. -/
def removePhoneList (number : String) : List Phone → Except PyError (List Phone)
  | [] => .error (.valueError ("Phone number \x27" ++ number ++ "\x27 not found."))
  | p :: rest =>
    if p.value = number then .ok rest
    else
      match removePhoneList number rest with
      | .error e => .error e
      | .ok rest2 => .ok (p :: rest2)

/-- Method `Record.remove_phone` of `main.py`. -/
def Record.remove_phone (r : Record) (number : String) : Except PyError Record :=
  match removePhoneList number r.phones with
  | .error e => .error e
  | .ok ps => .ok { r with phones := ps }

/-- Loop of `Record.edit_phone`: at the first phone whose value equals
`oldNumber`, validate `newNumber` and replace in place; raise `ValueError`
when no phone matches.  The replacement `Phone(new_number)` is constructed
before the list cell is overwritten, so a validation failure leaves the
list untouched. -/
def editPhoneList (oldNumber newNumber : String) : List Phone → Except PyError (List Phone)
  | [] => .error (.valueError ("Phone number \x27" ++ oldNumber ++ "\x27 not found."))
  | p :: rest =>
    if p.value = oldNumber then
      match Phone.init newNumber with
      | .error e => .error e
      | .ok np => .ok (np :: rest)
    else
      match editPhoneList oldNumber newNumber rest with
      | .error e => .error e
      | .ok rest2 => .ok (p :: rest2)

/-- Method `Record.edit_phone` of `main.py`. -/
def Record.edit_phone (r : Record) (oldNumber newNumber : String) : Except PyError Record :=
  match editPhoneList oldNumber newNumber r.phones with
  | .error e => .error e
  | .ok ps => .ok { r with phones := ps }

/-- Method `Record.find_phone` of `main.py`: first phone with the given
value, or `none`. -/
def Record.find_phone (r : Record) (number : String) : Option Phone :=
  r.phones.find? (fun p => p.value == number)

/-- Method `Record.add_birthday` of `main.py`: validate and set/overwrite. -/
def Record.add_birthday (r : Record) (birthday : String) : Except PyError Record :=
  match Birthday.init birthday with
  | .error e => .error e
  | .ok b => .ok { r with birthday := some b }

/-- The `AddressBook` (`UserDict[str, Record]`): an insertion-ordered
name-to-record mapping, embedded as an association list. -/
abbrev AddressBook := List (String × Record)

/-- Method `AddressBook.add_record`: dict assignment under key
`record.name.value` — overwrite in place when the key exists, else append. -/
def AddressBook.add_record : AddressBook → Record → AddressBook
  | [], r => [(r.name.value, r)]
  | (k, r0) :: rest, r =>
    if k = r.name.value then (k, r) :: rest
    else (k, r0) :: AddressBook.add_record rest r

/-- Method `AddressBook.find`: `dict.get(name, None)`. -/
def AddressBook.find (book : AddressBook) (name : String) : Option Record :=
  (book.find? (fun p => p.1 == name)).map Prod.snd

/-- Method `AddressBook.delete` of `main.py`: `dict.pop(name, None)` followed
by a raise on a falsy result (a `Record` is always truthy, so the raise
fires exactly when the key was absent; the message contains a literal
`{name}` because the source string is missing its `f` prefix). -/
def AddressBook.delete : AddressBook → String → Except PyError AddressBook
  | [], _ => .error (.valueError "Contact \x27{name}\x27 not found.")
  | (k, r) :: rest, name =>
    if k = name then .ok rest
    else
      match AddressBook.delete rest name with
      | .error e => .error e
      | .ok rest2 => .ok ((k, r) :: rest2)

/-- One element of the list returned by `get_upcoming_birthdays`: the dict
`{"name": record.name, "birthday": congratulation_date_str}` — note the
source stores the `Name` object itself, not its string. -/
structure Entry where
  name : Name
  birthday : String
deriving DecidableEq, Repr

/-- Python `(a - b).days` for dates: difference of ordinals. -/
def ordDiff (a b : Date) : Int :=
  (a.toOrdinal : Int) - (b.toOrdinal : Int)

/-- Lines 138-141 of `main.py`: re-apply the birthday's month/day to this
year, and when the result is before `today`, to the next year.  Both
`replace` calls validate through the `datetime` constructor and can raise
(e.g. February 29 in a non-leap target year). -/
def celebBase (today b : Date) : Except PyError Date :=
  match b.pyReplaceYear today.year with
  | .error e => .error e
  | .ok ty =>
    if ty.pyLt today then ty.pyReplaceYear (ty.year + 1)
    else .ok ty

/-- Body of the `get_upcoming_birthdays` loop for one record: skip records
without a birthday; otherwise compute the celebration base date, test the
inclusive window, and on inclusion emit the weekend-adjusted, formatted
entry. -/
def processRecord (today : Date) (days : Int) (r : Record) : Except PyError (Option Entry) :=
  match r.birthday with
  | none => .ok none
  | some bd =>
    match celebBase today bd.date with
    | .error e => .error e
    | .ok bty =>
      if 0 ≤ ordDiff bty today ∧ ordDiff bty today ≤ days then
        .ok (some ⟨r.name, strftime_dmY (adjust_for_weekend bty)⟩)
      else .ok none

/-- Method `AddressBook.get_upcoming_birthdays` of `main.py`, with `today`
passed explicitly (the source reads `datetime.date.today()`) and the
window `days` (source default 7). -/
def AddressBook.get_upcoming_birthdays : AddressBook → Date → Int → Except PyError (List Entry)
  | [], _, _ => .ok []
  | (_, r) :: rest, today, days =>
    match processRecord today days r with
    | .error e => .error e
    | .ok eo =>
      match AddressBook.get_upcoming_birthdays rest today days with
      | .error e => .error e
      | .ok tail => .ok (eo.toList ++ tail)

/-- State-passing translation of the `get_upcoming_birthdays` loop body:
the record is threaded through explicitly, making visible that the body
only reads it (no statement of the source assigns to `record` or to any
of its fields). -/
def processRecordSt (today : Date) (days : Int) (r : Record) :
    Except PyError (Record × Option Entry) :=
  match processRecord today days r with
  | .error e => .error e
  | .ok eo => .ok (r, eo)

/-- State-passing translation of `get_upcoming_birthdays`: the book is
threaded through the loop and returned alongside the result list. -/
def AddressBook.get_upcoming_birthdays_st :
    AddressBook → Date → Int → Except PyError (AddressBook × List Entry)
  | [], _, _ => .ok ([], [])
  | (k, r) :: rest, today, days =>
    match processRecordSt today days r with
    | .error e => .error e
    | .ok (r2, eo) =>
      match AddressBook.get_upcoming_birthdays_st rest today days with
      | .error e => .error e
      | .ok (rest2, tail) => .ok ((k, r2) :: rest2, eo.toList ++ tail)

/-- The inclusion condition of claim C1, phrased over the source's
celebration-base computation: the day difference `delta` between the
(year-adjusted) birthday and `today` satisfies `0 ≤ delta ≤ days`. -/
def inclCond (today : Date) (days : Int) (b : Date) : Bool :=
  match celebBase today b with
  | .error _ => false
  | .ok ty => decide (0 ≤ ordDiff ty today) && decide (ordDiff ty today ≤ days)

/-- The spec's literal fixed pattern `DD.MM.YYYY`: exactly ten characters,
two ASCII-digit day, dot, two ASCII-digit month, dot, four ASCII-digit
year.  This follows the spec's words, for comparison with the source's
`strptime` acceptance. -/
def specMatchesDDMMYYYY (s : String) : Bool :=
  match s.toList with
  | [d₁, d₂, p₁, m₁, m₂, p₂, y₁, y₂, y₃, y₄] =>
    d₁.isDigit && d₂.isDigit && p₁ == '.' && m₁.isDigit && m₂.isDigit &&
      p₂ == '.' && y₁.isDigit && y₂.isDigit && y₃.isDigit && y₄.isDigit
  | _ => false

/-! ### Calendar arithmetic lemmas -/

set_option maxHeartbeats 1000000 in
lemma daysBeforeYear_succ (y : Nat) (hy : 1 ≤ y) :
    daysBeforeYear (y + 1) = daysBeforeYear y + (if isLeap y then 366 else 365) := by
  obtain ⟨k, rfl⟩ : ∃ k, y = k + 1 := ⟨y - 1, by omega⟩
  simp only [daysBeforeYear, isLeap, Nat.add_sub_cancel]
  simp only [Bool.or_eq_true, Bool.and_eq_true, beq_iff_eq, bne_iff_ne, ne_eq]
  split_ifs with h
  · omega
  · omega

lemma daysInMonth_pos (y m : Nat) (h1 : 1 ≤ m) (h2 : m ≤ 12) : 1 ≤ daysInMonth y m := by
  interval_cases m <;> simp [daysInMonth] <;> split_ifs <;> omega

lemma daysInMonth_le (y m : Nat) : daysInMonth y m ≤ 31 := by
  unfold daysInMonth
  split <;> first | omega | (split_ifs <;> omega)

lemma daysBeforeMonth_succ (y m : Nat) (h1 : 1 ≤ m) (h2 : m ≤ 11) :
    daysBeforeMonth y (m + 1) = daysBeforeMonth y m + daysInMonth y m := by
  interval_cases m <;> cases hb : isLeap y <;>
    simp [daysBeforeMonth, daysInMonth, hb]

lemma toOrdinal_nextDate (d : Date) (h : d.CalValid) :
    (nextDate d).toOrdinal = d.toOrdinal + 1 := by
  obtain ⟨h1, h2, h3, h4, h5⟩ := h
  unfold nextDate
  split_ifs with hd hm
  · show daysBeforeYear d.year + daysBeforeMonth d.year d.month + (d.day + 1) =
      d.toOrdinal + 1
    simp only [Date.toOrdinal]
    omega
  · have hsucc := daysBeforeMonth_succ d.year d.month h2 (by omega)
    show daysBeforeYear d.year + daysBeforeMonth d.year (d.month + 1) + 1 =
      d.toOrdinal + 1
    simp only [Date.toOrdinal]
    omega
  · have hm12 : d.month = 12 := by omega
    have h31 : daysInMonth d.year 12 = 31 := rfl
    have hday : d.day = 31 := by rw [hm12] at h5 hd; omega
    have hY := daysBeforeYear_succ d.year h1
    have e1 : daysBeforeMonth (d.year + 1) 1 = 0 := rfl
    have e2 : daysBeforeMonth d.year 12 = 334 + (if isLeap d.year then 1 else 0) := by
      cases hb : isLeap d.year <;> simp [daysBeforeMonth, hb]
    show daysBeforeYear (d.year + 1) + daysBeforeMonth (d.year + 1) 1 + 1 =
      d.toOrdinal + 1
    simp only [Date.toOrdinal, hm12, hday, e1, e2]
    cases hb : isLeap d.year <;> rw [hb] at hY <;> simp at hY ⊢ <;> omega

lemma calValid_nextDate (d : Date) (h : d.CalValid) : (nextDate d).CalValid := by
  obtain ⟨h1, h2, h3, h4, h5⟩ := h
  unfold nextDate
  split_ifs with hd hm
  · refine ⟨h1, h2, h3, ?_, ?_⟩
    · show 1 ≤ d.day + 1
      omega
    · show d.day + 1 ≤ daysInMonth d.year d.month
      omega
  · refine ⟨h1, ?_, ?_, ?_, ?_⟩
    · show 1 ≤ d.month + 1
      omega
    · show d.month + 1 ≤ 12
      omega
    · show (1 : Nat) ≤ 1
      omega
    · show 1 ≤ daysInMonth d.year (d.month + 1)
      exact daysInMonth_pos _ _ (by omega) (by omega)
  · refine ⟨?_, ?_, ?_, ?_, ?_⟩
    · show 1 ≤ d.year + 1
      omega
    · show (1 : Nat) ≤ 1
      omega
    · show (1 : Nat) ≤ 12
      omega
    · show (1 : Nat) ≤ 1
      omega
    · show 1 ≤ daysInMonth (d.year + 1) 1
      have : daysInMonth (d.year + 1) 1 = 31 := rfl
      omega

lemma calValid_addDays (d : Date) (n : Nat) (h : d.CalValid) : (addDays d n).CalValid := by
  induction n with
  | zero => exact h
  | succ n ih => exact calValid_nextDate _ ih

lemma toOrdinal_addDays (d : Date) (n : Nat) (h : d.CalValid) :
    (addDays d n).toOrdinal = d.toOrdinal + n := by
  induction n with
  | zero => rfl
  | succ n ih =>
    show (nextDate (addDays d n)).toOrdinal = d.toOrdinal + (n + 1)
    rw [toOrdinal_nextDate _ (calValid_addDays d n h), ih]
    omega

/-- C2: for every representable calendar date, `adjust_for_weekend` shifts a
Saturday by exactly two days and a Sunday by exactly one day, in both cases
landing on the least Monday strictly after the date, and returns every
Monday-through-Friday date unchanged. -/
theorem adjust_for_weekend_correct (d : Date) (h : d.CalValid) :
    (d.weekday = 5 →
      (adjust_for_weekend d).CalValid ∧
      (adjust_for_weekend d).toOrdinal = d.toOrdinal + 2 ∧
      (adjust_for_weekend d).weekday = 0 ∧
      (∀ e : Date, e.weekday = 0 → d.toOrdinal < e.toOrdinal →
        (adjust_for_weekend d).toOrdinal ≤ e.toOrdinal)) ∧
    (d.weekday = 6 →
      (adjust_for_weekend d).CalValid ∧
      (adjust_for_weekend d).toOrdinal = d.toOrdinal + 1 ∧
      (adjust_for_weekend d).weekday = 0 ∧
      (∀ e : Date, e.weekday = 0 → d.toOrdinal < e.toOrdinal →
        (adjust_for_weekend d).toOrdinal ≤ e.toOrdinal)) ∧
    (d.weekday ≤ 4 → adjust_for_weekend d = d) := by
  refine ⟨?_, ?_, ?_⟩
  · intro h5
    have hadj : adjust_for_weekend d = addDays d 2 := by
      simp only [adjust_for_weekend, find_next_weekday, h5]
      all_goals norm_num
      all_goals rfl
    rw [hadj]
    refine ⟨calValid_addDays d 2 h, toOrdinal_addDays d 2 h, ?_, ?_⟩
    · unfold Date.weekday at h5 ⊢
      rw [toOrdinal_addDays d 2 h]
      omega
    · intro e he hlt
      unfold Date.weekday at h5 he
      rw [toOrdinal_addDays d 2 h]
      omega
  · intro h6
    have hadj : adjust_for_weekend d = addDays d 1 := by
      simp only [adjust_for_weekend, find_next_weekday, h6]
      all_goals norm_num
      all_goals rfl
    rw [hadj]
    refine ⟨calValid_addDays d 1 h, toOrdinal_addDays d 1 h, ?_, ?_⟩
    · unfold Date.weekday at h6 ⊢
      rw [toOrdinal_addDays d 1 h]
      omega
    · intro e he hlt
      unfold Date.weekday at h6 he
      rw [toOrdinal_addDays d 1 h]
      omega
  · intro hw
    unfold adjust_for_weekend
    rw [if_neg (by omega)]

/-- Witness for C2 at 15.06.2024 (a Saturday) and 18.06.2024 (a Tuesday). -/
theorem adjust_for_weekend_correct_witness :
    (Date.mk 2024 6 15).CalValid ∧
    (adjust_for_weekend ⟨2024, 6, 15⟩).toOrdinal = (Date.mk 2024 6 15).toOrdinal + 2 ∧
    (adjust_for_weekend ⟨2024, 6, 15⟩).weekday = 0 ∧
    adjust_for_weekend ⟨2024, 6, 18⟩ = ⟨2024, 6, 18⟩ := by
  refine ⟨by decide, ?_, ?_, ?_⟩
  · exact ((adjust_for_weekend_correct ⟨2024, 6, 15⟩ (by decide)).1 (by decide)).2.1
  · exact ((adjust_for_weekend_correct ⟨2024, 6, 15⟩ (by decide)).1 (by decide)).2.2.1
  · exact (adjust_for_weekend_correct ⟨2024, 6, 18⟩ (by decide)).2.2 (by decide)

/-! ### C3: phone validation -/

/-- C3 counterexample: the claim says `Phone` construction fails whenever the
string contains a character that is not an ASCII digit, but the source checks
Python `str.isdigit`, which also accepts Unicode digit characters: the
ten-character string of superscript-two characters (U+00B2) is accepted and
stored although none of its characters is an ASCII digit. -/
theorem phone_ascii_digit_counterexample :
    Phone.init "²²²²²²²²²²" = .ok ⟨"²²²²²²²²²²"⟩ ∧
    ("²²²²²²²²²²".toList.all Char.isDigit) = false := by
  decide

/-- C3 (amended): `Phone` construction fails with the validation `ValueError`
exactly when the string's length differs from 10 or some character lacks
Python's `str.isdigit` digit property (which is broader than ASCII digits),
and every accepted string is stored unchanged (round-trips). -/
theorem phone_construction_spec (s : String) :
    (s.length = 10 → pyIsdigit s = true → Phone.init s = .ok ⟨s⟩) ∧
    (s.length ≠ 10 ∨ pyIsdigit s = false →
      Phone.init s = .error (.valueError "Phone number must be 10 digits.")) ∧
    (∀ p : Phone, Phone.init s = .ok p → p.value = s) := by
  refine ⟨?_, ?_, ?_⟩
  · intro h1 h2
    unfold Phone.init
    rw [if_neg]
    simp [h1, h2]
  · intro h
    unfold Phone.init
    rw [if_pos h]
  · intro p hp
    unfold Phone.init at hp
    split_ifs at hp <;> injection hp with h
    rw [← h]

/-- Witness for C3: a valid phone is accepted, a short one rejected. -/
theorem phone_construction_spec_witness :
    Phone.init "0123456789" = .ok ⟨"0123456789"⟩ ∧
    Phone.init "123" = .error (.valueError "Phone number must be 10 digits.") := by
  constructor
  · exact (phone_construction_spec "0123456789").1 (by decide) (by decide)
  · exact (phone_construction_spec "123").2.1 (by decide)

/-! ### C4: birthday validation -/

/-- C4 counterexample: the claim says `Birthday` construction fails whenever
the string does not match the fixed pattern `DD.MM.YYYY`, but `strptime`'s
`%d` and `%m` fields also accept single digits: "5.6.2020" is accepted (and
stored verbatim) although it does not match `DD.MM.YYYY`. -/
theorem birthday_pattern_counterexample :
    Birthday.init "5.6.2020" = .ok ⟨"5.6.2020", ⟨2020, 6, 5⟩⟩ ∧
    specMatchesDDMMYYYY "5.6.2020" = false := by
  decide

/-- C4 (amended): `Birthday` construction fails with the fixed format
`ValueError` exactly when `strptime("%d.%m.%Y")` rejects the string (its
day/month fields allow one or two digits, so acceptance is broader than the
literal `DD.MM.YYYY` pattern) or the parsed fields do not denote a real
`datetime.date`; every accepted string round-trips: the stored display value
is the original input text, not a reformatted date. -/
theorem birthday_construction_spec (s : String) :
    (∀ b : Birthday, Birthday.init s = .ok b → b.value = s) ∧
    (strptime_dmY s = none →
      Birthday.init s = .error (.valueError "Accepted date format: \x27DD.MM.YYYY\x27.")) ∧
    (∀ yy mm dd : Nat, strptime_dmY s = some (yy, mm, dd) →
      (∀ e : PyError, mkDate yy mm dd = .error e →
        Birthday.init s = .error (.valueError "Accepted date format: \x27DD.MM.YYYY\x27.")) ∧
      (∀ d : Date, mkDate yy mm dd = .ok d → Birthday.init s = .ok ⟨s, d⟩)) := by
  refine ⟨?_, ?_, ?_⟩
  · intro b hb
    unfold Birthday.init at hb
    split at hb
    · split at hb
      · injection hb with h
        rw [← h]
      · injection hb
    · injection hb
  · intro h1
    unfold Birthday.init
    rw [h1]
  · intro yy mm dd h1
    have hred : Birthday.init s = match mkDate yy mm dd with
        | .ok d => .ok ⟨s, d⟩
        | .error _ => .error (.valueError "Accepted date format: \x27DD.MM.YYYY\x27.") := by
      unfold Birthday.init
      rw [h1]
    constructor
    · intro e h2
      rw [hred, h2]
    · intro d h2
      rw [hred, h2]

/-- Witness for C4: the non-date "30.02.2020" is rejected and the valid
"15.06.1990" is accepted with its parsed date. -/
theorem birthday_construction_spec_witness :
    Birthday.init "30.02.2020" =
      .error (.valueError "Accepted date format: \x27DD.MM.YYYY\x27.") ∧
    Birthday.init "15.06.1990" = .ok ⟨"15.06.1990", ⟨1990, 6, 15⟩⟩ := by
  constructor
  · exact ((birthday_construction_spec "30.02.2020").2.2 2020 2 30 (by decide)).1
      (.valueError "day is out of range for month") (by decide)
  · exact ((birthday_construction_spec "15.06.1990").2.2 1990 6 15 (by decide)).2
      ⟨1990, 6, 15⟩ (by decide)

/-! ### C5: edit_phone -/

lemma editPhoneList_not_found (o n : String) (l : List Phone)
    (h : ∀ p ∈ l, p.value ≠ o) :
    editPhoneList o n l = .error (.valueError ("Phone number \x27" ++ o ++ "\x27 not found.")) := by
  induction l with
  | nil => rfl
  | cons p rest ih =>
    unfold editPhoneList
    rw [if_neg (h p (List.mem_cons_self p rest)),
      ih (fun q hq => h q (List.mem_cons_of_mem p hq))]

lemma editPhoneList_validation (o n : String) (l : List Phone) (e : PyError)
    (hmem : ∃ p ∈ l, p.value = o) (he : Phone.init n = .error e) :
    editPhoneList o n l = .error e := by
  induction l with
  | nil => simp at hmem
  | cons p rest ih =>
    unfold editPhoneList
    by_cases hp : p.value = o
    · rw [if_pos hp, he]
    · rw [if_neg hp]
      obtain ⟨q, hq, hqv⟩ := hmem
      have hq2 : q ∈ rest := by
        rcases List.mem_cons.mp hq with h1 | h1
        · exact absurd (h1 ▸ hqv) hp
        · exact h1
      rw [ih ⟨q, hq2, hqv⟩]

lemma editPhoneList_found (o n : String) (np : Phone) (hn : Phone.init n = .ok np) :
    ∀ (l1 : List Phone) (p : Phone) (l2 : List Phone),
      (∀ q ∈ l1, q.value ≠ o) → p.value = o →
      editPhoneList o n (l1 ++ p :: l2) = .ok (l1 ++ np :: l2) := by
  intro l1
  induction l1 with
  | nil =>
    intro p l2 _ hp
    simp only [List.nil_append]
    unfold editPhoneList
    rw [if_pos hp, hn]
  | cons q rest ih =>
    intro p l2 hq hp
    simp only [List.cons_append]
    unfold editPhoneList
    rw [if_neg (hq q (List.mem_cons_self q rest)),
      ih p l2 (fun x hx => hq x (List.mem_cons_of_mem q hx)) hp]

/-- C5: `edit_phone` either fails with the not-found `ValueError` when no
phone equals the old number (whatever the new number is), or propagates the
validation `ValueError` of a malformed new number when the old number is
present, or — when the old number is present and the new number is valid —
replaces the first matching phone in place at the same position.  In the
embedding failures return only the error, so the caller's phone list is
exactly what it was before the call. -/
theorem edit_phone_cases (r : Record) (oldNumber newNumber : String) :
    ((∀ p ∈ r.phones, p.value ≠ oldNumber) →
      r.edit_phone oldNumber newNumber =
        .error (.valueError ("Phone number \x27" ++ oldNumber ++ "\x27 not found."))) ∧
    ((∃ p ∈ r.phones, p.value = oldNumber) →
      ∀ e : PyError, Phone.init newNumber = .error e →
        r.edit_phone oldNumber newNumber = .error e) ∧
    (∀ np : Phone, Phone.init newNumber = .ok np →
      ∀ (l1 : List Phone) (p : Phone) (l2 : List Phone),
        r.phones = l1 ++ p :: l2 → (∀ q ∈ l1, q.value ≠ oldNumber) →
        p.value = oldNumber →
        r.edit_phone oldNumber newNumber = .ok { r with phones := l1 ++ np :: l2 }) := by
  refine ⟨?_, ?_, ?_⟩
  · intro h
    unfold Record.edit_phone
    rw [editPhoneList_not_found _ _ _ h]
  · intro hmem e he
    unfold Record.edit_phone
    rw [editPhoneList_validation _ _ _ _ hmem he]
  · intro np hn l1 p l2 hsplit hl1 hp
    unfold Record.edit_phone
    rw [hsplit, editPhoneList_found _ _ _ hn l1 p l2 hl1 hp]

/-- Witness for C5: the three cases at concrete records. -/
theorem edit_phone_cases_witness :
    Record.edit_phone ⟨⟨"Ann"⟩, [⟨"0123456789"⟩], none⟩ "1112223334" "0000000000" =
      .error (.valueError ("Phone number \x27" ++ "1112223334" ++ "\x27 not found.")) ∧
    Record.edit_phone ⟨⟨"Ann"⟩, [⟨"0123456789"⟩], none⟩ "0123456789" "12ab" =
      .error (.valueError "Phone number must be 10 digits.") ∧
    Record.edit_phone ⟨⟨"Ann"⟩, [⟨"0123456789"⟩], none⟩ "0123456789" "1112223334" =
      .ok ⟨⟨"Ann"⟩, [⟨"1112223334"⟩], none⟩ := by
  refine ⟨?_, ?_, ?_⟩
  · exact (edit_phone_cases ⟨⟨"Ann"⟩, [⟨"0123456789"⟩], none⟩ "1112223334" "0000000000").1
      (by decide)
  · exact (edit_phone_cases ⟨⟨"Ann"⟩, [⟨"0123456789"⟩], none⟩ "0123456789" "12ab").2.1
      (by decide) _ (by decide)
  · exact (edit_phone_cases ⟨⟨"Ann"⟩, [⟨"0123456789"⟩], none⟩ "0123456789" "1112223334").2.2
      ⟨"1112223334"⟩ (by decide) [] ⟨"0123456789"⟩ [] rfl (by decide) (by decide)

/-! ### C6: delete -/

lemma delete_not_found (nm : String) :
    ∀ book : AddressBook, nm ∉ book.map Prod.fst →
      AddressBook.delete book nm = .error (.valueError "Contact \x27{name}\x27 not found.") := by
  intro book
  induction book with
  | nil => intro _; rfl
  | cons e rest ih =>
    intro h
    obtain ⟨k, r⟩ := e
    have hk : k ≠ nm := by
      intro hk
      exact h (by simp [hk])
    unfold AddressBook.delete
    rw [if_neg hk, ih (fun hmem => h (by simp [List.map_cons]; right; simpa using hmem))]

lemma delete_found (nm : String) :
    ∀ (l1 : AddressBook) (e : String × Record) (l2 : AddressBook),
      e.1 = nm → nm ∉ l1.map Prod.fst →
      AddressBook.delete (l1 ++ e :: l2) nm = .ok (l1 ++ l2) := by
  intro l1
  induction l1 with
  | nil =>
    intro e l2 he _
    obtain ⟨k, r⟩ := e
    simp only [List.nil_append]
    unfold AddressBook.delete
    rw [if_pos he]
  | cons q rest ih =>
    intro e l2 he hq
    obtain ⟨k, r⟩ := q
    have hk : k ≠ nm := by
      intro hk
      exact hq (by simp [hk])
    simp only [List.cons_append]
    unfold AddressBook.delete
    rw [if_neg hk, ih e l2 he (fun hmem => hq (by simp [List.map_cons]; right; simpa using hmem))]

/-- C6: `delete` removes the (first, hence unique) entry under the given
name when one is present, and fails with the not-found `ValueError` exactly
when the name is absent from the mapping. -/
theorem delete_correct (book : AddressBook) (nm : String) :
    (nm ∉ book.map Prod.fst →
      book.delete nm = .error (.valueError "Contact \x27{name}\x27 not found.")) ∧
    (∀ (l1 : AddressBook) (e : String × Record) (l2 : AddressBook),
      book = l1 ++ e :: l2 → e.1 = nm → nm ∉ l1.map Prod.fst →
      book.delete nm = .ok (l1 ++ l2)) := by
  constructor
  · exact delete_not_found nm book
  · intro l1 e l2 hsplit he hmem
    rw [hsplit]
    exact delete_found nm l1 e l2 he hmem

/-- Witness for C6: deleting a missing name fails, deleting a present one
removes exactly its entry. -/
theorem delete_correct_witness :
    AddressBook.delete [("Ann", ⟨⟨"Ann"⟩, [], none⟩)] "ghost" =
      .error (.valueError "Contact \x27{name}\x27 not found.") ∧
    AddressBook.delete [("Ann", ⟨⟨"Ann"⟩, [], none⟩)] "Ann" = .ok [] := by
  constructor
  · exact (delete_correct [("Ann", ⟨⟨"Ann"⟩, [], none⟩)] "ghost").1 (by decide)
  · exact (delete_correct [("Ann", ⟨⟨"Ann"⟩, [], none⟩)] "Ann").2
      [] ("Ann", ⟨⟨"Ann"⟩, [], none⟩) [] rfl rfl (by decide)

/-! ### C7: add_phone / remove_phone / find_phone -/

/-- C7 counterexample: the claim says that after `remove_phone(v)` a
`find_phone(v)` returns none, for every record; but `remove_phone` only
removes the FIRST phone whose value equals `v`, and the data model permits
duplicates (`add_phone` does not check for them), so on a record holding
the same number twice the second copy is still found afterwards. -/
theorem remove_then_find_counterexample :
    Record.remove_phone ⟨⟨"Bob"⟩, [⟨"0123456789"⟩, ⟨"0123456789"⟩], none⟩ "0123456789" =
      .ok ⟨⟨"Bob"⟩, [⟨"0123456789"⟩], none⟩ ∧
    Record.find_phone ⟨⟨"Bob"⟩, [⟨"0123456789"⟩], none⟩ "0123456789" =
      some ⟨"0123456789"⟩ := by
  decide

lemma find_phone_append_single (l : List Phone) (x : Phone) (v : String)
    (hx : x.value = v) :
    ∃ p, (l ++ [x]).find? (fun q => q.value == v) = some p ∧ p.value = v := by
  induction l with
  | nil =>
    refine ⟨x, ?_, hx⟩
    simp only [List.nil_append]
    rw [List.find?_cons_of_pos _ (by simp [hx])]
  | cons q rest ih =>
    by_cases hq : q.value = v
    · refine ⟨q, ?_, hq⟩
      simp only [List.cons_append]
      rw [List.find?_cons_of_pos _ (by simp [hq])]
    · obtain ⟨p, hp, hpv⟩ := ih
      refine ⟨p, ?_, hpv⟩
      simp only [List.cons_append]
      rw [List.find?_cons_of_neg _ (by simp [hq]), hp]

lemma removePhoneList_not_found (v : String) (l : List Phone)
    (h : ∀ p ∈ l, p.value ≠ v) :
    removePhoneList v l = .error (.valueError ("Phone number \x27" ++ v ++ "\x27 not found.")) := by
  induction l with
  | nil => rfl
  | cons p rest ih =>
    unfold removePhoneList
    rw [if_neg (h p (List.mem_cons_self p rest)),
      ih (fun q hq => h q (List.mem_cons_of_mem p hq))]

lemma removePhoneList_ok_find (v : String) :
    ∀ l l2 : List Phone,
      (l.filter (fun p => p.value == v)).length ≤ 1 →
      removePhoneList v l = .ok l2 →
      l2.find? (fun p => p.value == v) = none := by
  intro l
  induction l with
  | nil =>
    intro l2 _ h
    exact absurd h (by simp [removePhoneList])
  | cons p rest ih =>
    intro l2 hcount hok
    unfold removePhoneList at hok
    by_cases hp : p.value = v
    · rw [if_pos hp] at hok
      injection hok with h2
      have hnil : rest.filter (fun q => q.value == v) = [] := by
        rw [List.filter_cons_of_pos (by simp [hp])] at hcount
        simp only [List.length_cons] at hcount
        exact List.length_eq_zero.mp (by omega)
      rw [← h2, List.find?_eq_none]
      intro x hx hxv
      have hmem : x ∈ rest.filter (fun q => q.value == v) :=
        List.mem_filter.mpr ⟨hx, hxv⟩
      rw [hnil] at hmem
      exact absurd hmem (List.not_mem_nil x)
    · rw [if_neg hp] at hok
      cases hrec : removePhoneList v rest with
      | error e => rw [hrec] at hok; injection hok
      | ok rest2 =>
        rw [hrec] at hok
        injection hok with h2
        have hcount2 : (rest.filter (fun q => q.value == v)).length ≤ 1 := by
          rw [List.filter_cons_of_neg (by simp [hp])] at hcount
          exact hcount
        rw [← h2, List.find?_cons_of_neg _ (by simp [hp])]
        exact ih rest2 hcount2 hrec

/-- C7 (amended): after a successful `add_phone(v)`, `find_phone(v)` returns
a match with value `v`; `remove_phone(v)` fails with the not-found
`ValueError` exactly when no phone has value `v`; and after a successful
`remove_phone(v)` on a record holding at most one phone with value `v`
(the duplicate-free situation the caller layer maintains), `find_phone(v)`
returns none. -/
theorem add_remove_find_phone (r : Record) (v : String) :
    (∀ r2 : Record, r.add_phone v = .ok r2 →
      ∃ p : Phone, r2.find_phone v = some p ∧ p.value = v) ∧
    ((∀ p ∈ r.phones, p.value ≠ v) →
      r.remove_phone v = .error (.valueError ("Phone number \x27" ++ v ++ "\x27 not found."))) ∧
    (∀ r2 : Record, (r.phones.filter (fun p => p.value == v)).length ≤ 1 →
      r.remove_phone v = .ok r2 → r2.find_phone v = none) := by
  refine ⟨?_, ?_, ?_⟩
  · intro r2 h
    unfold Record.add_phone at h
    cases hi : Phone.init v with
    | error e => rw [hi] at h; injection h
    | ok p =>
      rw [hi] at h
      injection h with h2
      have hpv : p.value = v := by
        unfold Phone.init at hi
        split_ifs at hi <;> injection hi with h3
        rw [← h3]
      unfold Record.find_phone
      rw [← h2]
      exact find_phone_append_single r.phones p v hpv
  · intro h
    unfold Record.remove_phone
    rw [removePhoneList_not_found v r.phones h]
  · intro r2 hcount h
    unfold Record.remove_phone at h
    cases hrem : removePhoneList v r.phones with
    | error e => rw [hrem] at h; injection h
    | ok ps =>
      rw [hrem] at h
      injection h with h2
      unfold Record.find_phone
      rw [← h2]
      exact removePhoneList_ok_find v r.phones ps hcount hrem

/-- Witness for C7 (amended): the three parts at concrete records. -/
theorem add_remove_find_phone_witness :
    (∃ p : Phone, Record.find_phone ⟨⟨"Cy"⟩, [⟨"0123456789"⟩], none⟩ "0123456789" =
      some p ∧ p.value = "0123456789") ∧
    Record.remove_phone ⟨⟨"Cy"⟩, [⟨"0123456789"⟩], none⟩ "9999999999" =
      .error (.valueError ("Phone number \x27" ++ "9999999999" ++ "\x27 not found.")) ∧
    Record.find_phone ⟨⟨"Cy"⟩, [], none⟩ "0123456789" = none := by
  refine ⟨?_, ?_, ?_⟩
  · exact (add_remove_find_phone ⟨⟨"Cy"⟩, [], none⟩ "0123456789").1
      ⟨⟨"Cy"⟩, [⟨"0123456789"⟩], none⟩ (by decide)
  · exact (add_remove_find_phone ⟨⟨"Cy"⟩, [⟨"0123456789"⟩], none⟩ "9999999999").2.1
      (by decide)
  · exact (add_remove_find_phone ⟨⟨"Cy"⟩, [⟨"0123456789"⟩], none⟩ "0123456789").2.2
      ⟨⟨"Cy"⟩, [], none⟩ (by decide) (by decide)

/-! ### C1: the upcoming-birthday window -/

lemma upcoming_cons (k : String) (r : Record) (rest : AddressBook) (today : Date)
    (days : Int) (res : List Entry)
    (h : AddressBook.get_upcoming_birthdays ((k, r) :: rest) today days = .ok res) :
    ∃ eo tl, processRecord today days r = .ok eo ∧
      AddressBook.get_upcoming_birthdays rest today days = .ok tl ∧
      res = eo.toList ++ tl := by
  unfold AddressBook.get_upcoming_birthdays at h
  cases hp : processRecord today days r with
  | error e => rw [hp] at h; injection h
  | ok eo =>
    rw [hp] at h
    cases hr : AddressBook.get_upcoming_birthdays rest today days with
    | error e => rw [hr] at h; injection h
    | ok tl =>
      rw [hr] at h
      injection h with h2
      exact ⟨eo, tl, rfl, rfl, h2.symm⟩

lemma processRecord_ok_name (today : Date) (days : Int) (r : Record) (e : Entry)
    (h : processRecord today days r = .ok (some e)) : e.name = r.name := by
  unfold processRecord at h
  split at h
  · injection h with h2
    injection h2
  · split at h
    · injection h
    · split_ifs at h
      · injection h with h2
        injection h2 with h3
        rw [← h3]
      · injection h with h2
        injection h2

lemma processRecord_birthday_incl (today : Date) (days : Int) (r : Record)
    (bd : Birthday) (eo : Option Entry)
    (hb : r.birthday = some bd) (h : processRecord today days r = .ok eo) :
    eo.isSome = inclCond today days bd.date := by
  unfold processRecord at h
  split at h
  · next heq =>
      rw [hb] at heq
      injection heq
  · next bd2 heq =>
      rw [hb] at heq
      injection heq with hbd
      subst hbd
      unfold inclCond
      split at h
      · injection h
      · next bty heq2 =>
          split_ifs at h with hif
          · injection h with h2
            rw [← h2]
            simp only [Option.isSome_some]
            rw [decide_eq_true hif.1, decide_eq_true hif.2]
            rfl
          · injection h with h2
            rw [← h2]
            simp only [Option.isSome_none]
            by_cases ha : 0 ≤ ordDiff bty today
            · have hbn : ¬ ordDiff bty today ≤ days := fun hbb => hif ⟨ha, hbb⟩
              rw [decide_eq_true ha, decide_eq_false hbn]
              rfl
            · rw [decide_eq_false ha]
              rfl

lemma upcoming_names (today : Date) (days : Int) :
    ∀ (book : AddressBook) (res : List Entry),
      AddressBook.get_upcoming_birthdays book today days = .ok res →
      ∀ e ∈ res, ∃ p ∈ book, e.name = p.2.name := by
  intro book
  induction book with
  | nil =>
    intro res h e he
    rw [show AddressBook.get_upcoming_birthdays [] today days = .ok [] from rfl] at h
    injection h with h2
    rw [← h2] at he
    exact absurd he (List.not_mem_nil e)
  | cons hd rest ih =>
    intro res h e he
    obtain ⟨k, r⟩ := hd
    obtain ⟨eo, tl, hp, hr, hres⟩ := upcoming_cons k r rest today days res h
    rw [hres] at he
    rcases List.mem_append.mp he with h1 | h1
    · cases eo with
      | none => exact absurd h1 (by simp)
      | some e2 =>
        simp only [Option.toList_some, List.mem_singleton] at h1
        subst h1
        exact ⟨(k, r), List.mem_cons_self _ _, processRecord_ok_name today days r e hp⟩
    · obtain ⟨p, hpmem, hpname⟩ := ih tl hr e h1
      exact ⟨p, List.mem_cons_of_mem _ hpmem, hpname⟩

lemma upcoming_mem_aux (today : Date) (days : Int) :
    ∀ (book : AddressBook) (res : List Entry) (n : String) (r : Record) (bd : Birthday),
      (book.map fun p => p.2.name.value).Nodup →
      (n, r) ∈ book →
      r.birthday = some bd →
      AddressBook.get_upcoming_birthdays book today days = .ok res →
      ((∃ e ∈ res, e.name = r.name) ↔ inclCond today days bd.date = true) := by
  intro book
  induction book with
  | nil =>
    intro res n r bd _ hmem
    exact absurd hmem (List.not_mem_nil _)
  | cons hd rest ih =>
    intro res n r bd hnames hmem hb hok
    obtain ⟨k, r0⟩ := hd
    obtain ⟨eo, tl, hp, hr, hres⟩ := upcoming_cons k r0 rest today days res hok
    simp only [List.map_cons, List.nodup_cons] at hnames
    obtain ⟨hnotin, hnd⟩ := hnames
    rcases List.mem_cons.mp hmem with heq | hmem2
    · have hr0 : r = r0 := congrArg Prod.snd heq
      subst hr0
      constructor
      · rintro ⟨e, he, hename⟩
        rw [hres] at he
        rcases List.mem_append.mp he with h1 | h1
        · cases eo with
          | none => exact absurd h1 (by simp)
          | some e2 =>
            have hsome := processRecord_birthday_incl today days r bd (some e2) hb hp
            simp only [Option.isSome_some] at hsome
            exact hsome.symm
        · obtain ⟨p, hpmem, hpname⟩ := upcoming_names today days rest tl hr e h1
          exfalso
          apply hnotin
          refine List.mem_map.mpr ⟨p, hpmem, ?_⟩
          have h3 : p.2.name = r.name := by rw [← hpname, hename]
          exact congrArg Name.value h3
      · intro hincl
        have hsome := processRecord_birthday_incl today days r bd eo hb hp
        rw [hincl] at hsome
        cases eo with
        | none => simp at hsome
        | some e2 =>
          refine ⟨e2, ?_, processRecord_ok_name today days r e2 hp⟩
          rw [hres]
          exact List.mem_append.mpr (Or.inl (by simp))
    · have hiff := ih tl n r bd hnd hmem2 hb hr
      rw [hres]
      constructor
      · rintro ⟨e, he, hename⟩
        rcases List.mem_append.mp he with h1 | h1
        · cases eo with
          | none => exact absurd h1 (by simp)
          | some e2 =>
            exfalso
            simp only [Option.toList_some, List.mem_singleton] at h1
            subst h1
            have hr0name := processRecord_ok_name today days r0 e hp
            apply hnotin
            refine List.mem_map.mpr ⟨(n, r), hmem2, ?_⟩
            show r.name.value = r0.name.value
            rw [← hename, hr0name]
        · exact hiff.mp ⟨e, h1, hename⟩
      · intro hincl
        obtain ⟨e, he, hename⟩ := hiff.mpr hincl
        exact ⟨e, List.mem_append.mpr (Or.inr he), hename⟩

/-- C1: for every address book with pairwise-distinct record names, every
record in it with a set birthday, and every successful call, the result of
`get_upcoming_birthdays` contains an entry for that record if and only if
the day difference `delta` between the year-adjusted birthday (this year's
month/day, advanced one year when already past) and `today` satisfies
`0 ≤ delta ≤ days`, both ends inclusive. -/
theorem get_upcoming_birthdays_window (book : AddressBook) (today : Date) (days : Int)
    (n : String) (r : Record) (bd : Birthday) (res : List Entry)
    (hnames : (book.map fun p => p.2.name.value).Nodup)
    (hmem : (n, r) ∈ book) (hb : r.birthday = some bd)
    (hok : AddressBook.get_upcoming_birthdays book today days = .ok res) :
    (∃ e ∈ res, e.name = r.name) ↔ inclCond today days bd.date = true :=
  upcoming_mem_aux today days book res n r bd hnames hmem hb hok

/-- Witness for C1: in the Alice book the single entry is exactly the one
whose inclusion the window condition licenses. -/
theorem get_upcoming_birthdays_window_witness :
    (∃ e ∈ [Entry.mk ⟨"Alice"⟩ "17.06.2024"], e.name = Name.mk "Alice") ↔
      inclCond ⟨2024, 6, 10⟩ 7 ⟨1990, 6, 15⟩ = true :=
  get_upcoming_birthdays_window
    [("Alice", ⟨⟨"Alice"⟩, [], some ⟨"15.06.1990", ⟨1990, 6, 15⟩⟩⟩)]
    ⟨2024, 6, 10⟩ 7 "Alice" ⟨⟨"Alice"⟩, [], some ⟨"15.06.1990", ⟨1990, 6, 15⟩⟩⟩
    ⟨"15.06.1990", ⟨1990, 6, 15⟩⟩ [⟨⟨"Alice"⟩, "17.06.2024"⟩]
    (by decide) (by decide) rfl (by decide)

/-! ### C8: the Alice scenario -/

/-- C8: with Alice born 15.06.1990, today 10.06.2024 and a 7-day window,
`get_upcoming_birthdays` returns exactly one entry pairing the contact's
name (the stored `Name` whose value is "Alice") with the celebration date
formatted as `DD.MM.YYYY`.  15.06.2024 is a Saturday (weekday 5), so the
claim's weekend branch applies: the celebration date is the following
Monday 17.06.2024. -/
theorem alice_scenario :
    AddressBook.get_upcoming_birthdays
        [("Alice", ⟨⟨"Alice"⟩, [], some ⟨"15.06.1990", ⟨1990, 6, 15⟩⟩⟩)]
        ⟨2024, 6, 10⟩ 7 =
      .ok [⟨⟨"Alice"⟩, "17.06.2024"⟩] ∧
    (Date.mk 2024 6 15).weekday = 5 ∧
    adjust_for_weekend ⟨2024, 6, 15⟩ = ⟨2024, 6, 17⟩ ∧
    strftime_dmY ⟨2024, 6, 17⟩ = "17.06.2024" := by
  decide

/-! ### C9: February 29 in a non-leap year -/

lemma processRecord_feb29 (today : Date) (days : Int) (r : Record) (bd : Birthday)
    (hb : r.birthday = some bd) (hm : bd.date.month = 2) (hd : bd.date.day = 29)
    (hleap : isLeap today.year = false) :
    ∃ e : PyError, processRecord today days r = .error e := by
  have h28 : daysInMonth today.year 2 = 28 := by
    simp [daysInMonth, hleap]
  have hcel : ∃ e, celebBase today bd.date = .error e := by
    unfold celebBase Date.pyReplaceYear mkDate
    rw [hm, hd]
    by_cases hy : 1 ≤ today.year ∧ today.year ≤ 9999
    · rw [if_pos hy, if_pos (by omega : 1 ≤ 2 ∧ 2 ≤ 12), if_neg (by omega)]
      exact ⟨_, rfl⟩
    · rw [if_neg hy]
      exact ⟨_, rfl⟩
  obtain ⟨e, he⟩ := hcel
  refine ⟨e, ?_⟩
  unfold processRecord
  rw [hb]
  show (match celebBase today bd.date with
    | .error e2 => .error e2
    | .ok bty =>
      if 0 ≤ ordDiff bty today ∧ ordDiff bty today ≤ days then
        .ok (some (Entry.mk r.name (strftime_dmY (adjust_for_weekend bty))))
      else .ok none) = Except.error e
  rw [he]

lemma upcoming_error_of_member (today : Date) (days : Int) :
    ∀ (book : AddressBook) (k : String) (r : Record),
      (k, r) ∈ book →
      (∃ e : PyError, processRecord today days r = .error e) →
      ∃ e : PyError, AddressBook.get_upcoming_birthdays book today days = .error e := by
  intro book
  induction book with
  | nil =>
    intro k r hmem _
    exact absurd hmem (List.not_mem_nil _)
  | cons hd rest ih =>
    intro k r hmem herr
    obtain ⟨k0, r0⟩ := hd
    unfold AddressBook.get_upcoming_birthdays
    rcases List.mem_cons.mp hmem with heq | hmem2
    · have hr : r0 = r := (congrArg Prod.snd heq).symm
      obtain ⟨e, he⟩ := herr
      exact ⟨e, by rw [hr, he]⟩
    · cases hp : processRecord today days r0 with
      | error e => exact ⟨e, rfl⟩
      | ok eo =>
        obtain ⟨e, he⟩ := ih k r hmem2 herr
        exact ⟨e, by rw [he]⟩

/-- C9: whenever the book holds a record whose stored birthday is
February 29 and today's year is not a leap year, `get_upcoming_birthdays`
raises a `ValueError` (from the `replace(year=...)` re-application step)
instead of returning a result list: the record is neither skipped nor
clamped to February 28. -/
theorem feb29_nonleap_error (book : AddressBook) (today : Date) (days : Int)
    (k : String) (r : Record) (bd : Birthday)
    (hmem : (k, r) ∈ book) (hb : r.birthday = some bd)
    (hm : bd.date.month = 2) (hd : bd.date.day = 29)
    (hleap : isLeap today.year = false) :
    ∃ e : PyError, AddressBook.get_upcoming_birthdays book today days = .error e :=
  upcoming_error_of_member today days book k r hmem
    (processRecord_feb29 today days r bd hb hm hd hleap)

/-- Witness for C9: Bob born 29.02.1996, today 10.06.2025 (2025 is not a
leap year): the query errors. -/
theorem feb29_nonleap_error_witness :
    ∃ e : PyError,
      AddressBook.get_upcoming_birthdays
          [("Bob", ⟨⟨"Bob"⟩, [], some ⟨"29.02.1996", ⟨1996, 2, 29⟩⟩⟩)]
          ⟨2025, 6, 10⟩ 7 = .error e :=
  feb29_nonleap_error
    [("Bob", ⟨⟨"Bob"⟩, [], some ⟨"29.02.1996", ⟨1996, 2, 29⟩⟩⟩)]
    ⟨2025, 6, 10⟩ 7 "Bob" ⟨⟨"Bob"⟩, [], some ⟨"29.02.1996", ⟨1996, 2, 29⟩⟩⟩
    ⟨"29.02.1996", ⟨1996, 2, 29⟩⟩ (by decide) rfl rfl rfl (by decide)

/-! ### C10: the query is read-only -/

lemma processRecordSt_ok (today : Date) (days : Int) (r r2 : Record) (eo : Option Entry)
    (h : processRecordSt today days r = .ok (r2, eo)) : r2 = r := by
  unfold processRecordSt at h
  cases hp : processRecord today days r with
  | error e => rw [hp] at h; injection h
  | ok eo2 =>
    rw [hp] at h
    injection h with h2
    exact (congrArg Prod.fst h2).symm

/-- C10: `get_upcoming_birthdays` is a read-only query: in the state-passing
translation, a successful run returns the book unchanged — same key
sequence, and every record's name, phone list and birthday field exactly as
before the call. -/
theorem get_upcoming_birthdays_readonly :
    ∀ (book : AddressBook) (today : Date) (days : Int) (book2 : AddressBook)
      (es : List Entry),
      AddressBook.get_upcoming_birthdays_st book today days = .ok (book2, es) →
      book2 = book ∧
      book2.map Prod.fst = book.map Prod.fst ∧
      book2.map (fun p => p.2.name) = book.map (fun p => p.2.name) ∧
      book2.map (fun p => p.2.phones) = book.map (fun p => p.2.phones) ∧
      book2.map (fun p => p.2.birthday) = book.map (fun p => p.2.birthday) := by
  intro book
  induction book with
  | nil =>
    intro today days book2 es h
    rw [show AddressBook.get_upcoming_birthdays_st [] today days = .ok ([], []) from rfl] at h
    injection h with h2
    have hb : book2 = [] := (congrArg Prod.fst h2).symm
    subst hb
    exact ⟨rfl, rfl, rfl, rfl, rfl⟩
  | cons hd rest ih =>
    intro today days book2 es h
    obtain ⟨k, r⟩ := hd
    unfold AddressBook.get_upcoming_birthdays_st at h
    cases hp : processRecordSt today days r with
    | error e => rw [hp] at h; injection h
    | ok pr =>
      obtain ⟨r2, eo⟩ := pr
      rw [hp] at h
      cases hrec : AddressBook.get_upcoming_birthdays_st rest today days with
      | error e => rw [hrec] at h; injection h
      | ok pr2 =>
        obtain ⟨rest2, tl⟩ := pr2
        rw [hrec] at h
        injection h with h2
        have hbook : book2 = (k, r2) :: rest2 := (congrArg Prod.fst h2).symm
        have hr2 : r2 = r := processRecordSt_ok today days r r2 eo hp
        have hrest : rest2 = rest := (ih today days rest2 tl hrec).1
        subst hbook
        subst hr2
        subst hrest
        exact ⟨rfl, rfl, rfl, rfl, rfl⟩

/-- Witness for C10: a successful concrete run returns the book unchanged. -/
theorem get_upcoming_birthdays_readonly_witness :
    AddressBook.get_upcoming_birthdays_st
        [("Alice", ⟨⟨"Alice"⟩, [⟨"0123456789"⟩], some ⟨"15.06.1990", ⟨1990, 6, 15⟩⟩⟩)]
        ⟨2024, 6, 10⟩ 7 =
      .ok ([("Alice", ⟨⟨"Alice"⟩, [⟨"0123456789"⟩], some ⟨"15.06.1990", ⟨1990, 6, 15⟩⟩⟩)],
        [⟨⟨"Alice"⟩, "17.06.2024"⟩]) ∧
    ([("Alice", ⟨⟨"Alice"⟩, [⟨"0123456789"⟩], some ⟨"15.06.1990", ⟨1990, 6, 15⟩⟩⟩)] :
        AddressBook) =
      [("Alice", ⟨⟨"Alice"⟩, [⟨"0123456789"⟩], some ⟨"15.06.1990", ⟨1990, 6, 15⟩⟩⟩)] := by
  constructor
  · decide
  · exact (get_upcoming_birthdays_readonly
      [("Alice", ⟨⟨"Alice"⟩, [⟨"0123456789"⟩], some ⟨"15.06.1990", ⟨1990, 6, 15⟩⟩⟩)]
      ⟨2024, 6, 10⟩ 7
      [("Alice", ⟨⟨"Alice"⟩, [⟨"0123456789"⟩], some ⟨"15.06.1990", ⟨1990, 6, 15⟩⟩⟩)]
      [⟨⟨"Alice"⟩, "17.06.2024"⟩] (by decide)).1
